import Mathlib

/-!
Verification development for the paper-search aggregation subsystem
(`src/agents/paper_search/`): deduplication, hybrid ranking, rate limiting,
embedding validation, coverage analysis and retry logic, shallowly embedded
in Lean. Python dicts carrying paper records are modelled by the `Record`
structure below (absent keys are `none`); float arithmetic is modelled by
exact rationals; functions that may raise return `Except String`.
-/

/-- ASCII model of Python `str.lower()`. -/
def lowerStr (s : String) : String := String.mk (s.toList.map Char.toLower)

/-- Model of Python `str.strip()`: drop whitespace at both ends. -/
def stripChars (l : List Char) : List Char :=
  ((l.dropWhile Char.isWhitespace).reverse.dropWhile Char.isWhitespace).reverse

def stripStr (s : String) : String := String.mk (stripChars s.toList)

/-- Model of Python `str.split()` with no argument: split on whitespace runs,
dropping empty pieces. -/
def splitWsAux : List Char → List Char → List String
  | [], cur => if cur.isEmpty then [] else [String.mk cur.reverse]
  | c :: cs, cur =>
    if c.isWhitespace then
      if cur.isEmpty then splitWsAux cs [] else String.mk cur.reverse :: splitWsAux cs []
    else splitWsAux cs (c :: cur)

def splitWs (s : String) : List String := splitWsAux s.toList []

/-- Does `n` occur at the head of `h`? (model of a string match at one offset). -/
def leadMatch : List Char → List Char → Bool
  | [], _ => true
  | _ :: _, [] => false
  | c :: cs, d :: ds => c = d && leadMatch cs ds

/-- Substring containment, the model of Python `needle in haystack`. -/
def hasRun (n : List Char) : List Char → Bool
  | [] => leadMatch n []
  | d :: ds => leadMatch n (d :: ds) || hasRun n ds

def termIn (needle hay : String) : Bool := hasRun needle.toList hay.toList

/-- One paper record, the model of the Python dicts flowing through the search
pipeline. A key the dict lacks is `none`; the score keys written by the ranking
code are fields too, so in-place dict mutation is expressible. -/
structure Record where
  doi : Option String := none
  title : Option String := none
  id : Option String := none
  source : Option String := none
  year : Option Int := none
  citationCount : Option Nat := none
  citations : Option Nat := none
  abstract : Option String := none
  combined_score : Option ℚ := none
  relevance_score : Option Int := none
  hybrid_score : Option ℚ := none
deriving DecidableEq

/-- Membership of an optional key in a seen-set (Python `k and k in seen`). -/
def keyMem (k : Option String) (seen : List String) : Bool :=
  match k with
  | none => false
  | some s => decide (s ∈ seen)

/-- `seen.add(k)` for an optional key. -/
def pushKey (k : Option String) (seen : List String) : List String :=
  match k with
  | none => seen
  | some s => s :: seen

/-- The DOI key `ResultAggregator.deduplicate_results` uses: `result.get("doi")`,
lowercased; a missing or empty DOI is falsy and never checked or recorded. -/
def doiKey (r : Record) : Option String :=
  match r.doi with
  | none => none
  | some d => if d = "" then none else some (lowerStr d)

/-- The title key of `deduplicate_results`: `result.get("title", "")`, lowercased
and stripped; empty (also after stripping) is falsy. -/
def titleKey (r : Record) : Option String :=
  match r.title with
  | none => none
  | some t => let n := stripStr (lowerStr t); if n = "" then none else some n

/-- The id key of `deduplicate_results`: `result.get("id", "")`; empty is falsy. -/
def idKey (r : Record) : Option String :=
  match r.id with
  | none => none
  | some i => if i = "" then none else some i

/-- The loop of `ResultAggregator.deduplicate_results` (search_workflow.py
295-331) with its three seen-sets. As in the source, a record records its DOI
before the title check and its title before the id check, so a record dropped
late still poisons the earlier sets. -/
def dedupGo : List String → List String → List String → List Record → List Record
  | _, _, _, [] => []
  | dois, titles, ids, r :: rs =>
    if keyMem (doiKey r) dois then dedupGo dois titles ids rs
    else
      if keyMem (titleKey r) titles then dedupGo (pushKey (doiKey r) dois) titles ids rs
      else
        if keyMem (idKey r) ids then
          dedupGo (pushKey (doiKey r) dois) (pushKey (titleKey r) titles) ids rs
        else
          r :: dedupGo (pushKey (doiKey r) dois) (pushKey (titleKey r) titles)
              (pushKey (idKey r) ids) rs

def deduplicate_results (rs : List Record) : List Record := dedupGo [] [] [] rs

/-- The loop of `SearchAgent.remove_duplicates` (search_agent.py 107-134),
parameterised by the hash `h` standing for `hashlib.md5(..).hexdigest()` (an
opaque external function; every stated property holds for any `h`). The DOI is
`paper.get("doi", "")`, compared case-sensitively; the title hash is taken of
the lowercased stripped title and is consulted only when the DOI is empty. -/
def removeDupGo (h : String → String) : List String → List String → List Record → List Record
  | _, _, [] => []
  | dois, thashes, p :: ps =>
    let doi := (p.doi).getD ""
    let th := h (stripStr (lowerStr ((p.title).getD "")))
    if ¬ doi = "" ∧ doi ∈ dois then removeDupGo h dois thashes ps
    else if doi = "" ∧ th ∈ thashes then removeDupGo h dois thashes ps
    else
      p :: removeDupGo h (if doi = "" then dois else doi :: dois)
          (if doi = "" then th :: thashes else thashes) ps

def remove_duplicates (h : String → String) (ps : List Record) : List Record :=
  removeDupGo h [] [] ps

/-- Normalized title as the spec words it: lowercased, whitespace-collapsed. -/
def normTitleSpec (s : String) : String := String.intercalate " " (splitWs (lowerStr s))

def specDoiKey (r : Record) : Option String :=
  match r.doi with
  | none => none
  | some d => if d = "" then none else some (lowerStr d)

def specTitleKey (r : Record) : Option String :=
  match r.title with
  | none => none
  | some t => let n := normTitleSpec t; if n = "" then none else some n

/-- Deduplication as the SPEC words it (§4.7), for comparison with the code:
(1) case-insensitive DOI match, (2) normalized-title match only when the DOI is
absent, (3) id as last-resort tiebreak; first-seen wins, and only kept records
record their keys. This follows the spec sentence, not the source. -/
def dedupSpecGo : List String → List String → List String → List Record → List Record
  | _, _, _, [] => []
  | dois, titles, ids, r :: rs =>
    if keyMem (specDoiKey r) dois
        || ((specDoiKey r).isNone && keyMem (specTitleKey r) titles)
        || keyMem (idKey r) ids then
      dedupSpecGo dois titles ids rs
    else
      r :: dedupSpecGo (pushKey (specDoiKey r) dois) (pushKey (specTitleKey r) titles)
          (pushKey (idKey r) ids) rs

def dedupSpec (rs : List Record) : List Record := dedupSpecGo [] [] [] rs

/-- Stable insertion for a descending sort: keep every earlier-placed element
whose key is strictly larger; an element never passes one with an equal key, so
original order is preserved on ties. -/
def insertByDesc {α β : Type} [LinearOrder β] (key : α → β) (x : α) : List α → List α
  | [] => [x]
  | y :: ys => if key x < key y then y :: insertByDesc key x ys else x :: y :: ys

/-- Stable descending sort by `key`: the model of Python
`sort(key=..., reverse=True)`, which is a stable descending sort (and the
stable descending sort of a list is unique). -/
def sortDesc {α β : Type} [LinearOrder β] (key : α → β) (l : List α) : List α :=
  l.foldr (insertByDesc key) []

def setCombined (r : Record) (s : Option ℚ) : Record := { r with combined_score := s }

def setRelevance (r : Record) (s : Option Int) : Record := { r with relevance_score := s }

def setHybrid (r : Record) (s : ℚ) : Record := { r with hybrid_score := some s }

/-- `ResultAggregator.source_weights` (search_workflow.py 288-293) and the
`.get(source, 1.0)` lookups performed on it. The constructor stores these fixed
constants and performs no validation of any kind. -/
structure ResultAggregator where
  source_weights : List (String × ℚ)
deriving DecidableEq

def resultAggregatorInit : ResultAggregator :=
  ⟨[("semantic_scholar", 12/10), ("pubmed", 11/10), ("arxiv", 1)]⟩

def source_weight (s : String) : ℚ :=
  ((resultAggregatorInit.source_weights).lookup s).getD 1

/-- `ResultAggregator._calculate_combined_score` (search_workflow.py 374-402).
`datetime.now().year` is the explicit parameter `currentYear`; float arithmetic
is modelled exactly over ℚ. -/
def combinedScore (r : Record) (query : String) (currentYear : Int) : ℚ :=
  let s1 : ℚ :=
    let c := (r.citationCount).getD 0
    if 0 < c then min ((c : ℚ) / 100) 1 * (3/10) else 0
  let s2 : ℚ :=
    match r.year with
    | some y => if y = 0 then 0 else (1 - max 0 (((currentYear - y : Int) : ℚ) / 10)) * (2/10)
    | none => 0
  let s3 : ℚ := source_weight ((r.source).getD "unknown") * (2/10)
  let s4 : ℚ :=
    let title := lowerStr ((r.title).getD "")
    let qterms := splitWs (lowerStr query)
    let m := (qterms.filter (fun t => termIn t title)).length
    if 0 < m then (m : ℚ) / (qterms.length : ℚ) * (3/10) else 0
  s1 + s2 + s3 + s4

/-- `ResultAggregator.rank_results` (search_workflow.py 333-344). The Python
loop assigns `result["combined_score"] = score` on each input dict in place and
then stable-sorts those same dicts descending; the first component is the
returned list, the second the post-call state of the input records. -/
def rank_results (results : List Record) (query : String) (currentYear : Int) :
    List Record × List Record :=
  let scored := results.map (fun r => setCombined r (some (combinedScore r query currentYear)))
  (sortDesc (fun r => (r.combined_score).getD 0) scored, scored)

/-- `SearchAgent.score_relevance`s integer score (search_agent.py 75-105):
distinct query words in the title count 3, in the abstract 1, plus recency and
citation bonuses (`citationCount` falling back to `citations`). -/
def relScore (p : Record) (query : String) : Int :=
  let qset := (splitWs (lowerStr query)).dedup
  let tm := ((splitWs (lowerStr ((p.title).getD ""))).dedup.filter (fun w => decide (w ∈ qset))).length
  let am := ((splitWs (lowerStr ((p.abstract).getD ""))).dedup.filter (fun w => decide (w ∈ qset))).length
  let yb : Int := if 2020 ≤ (p.year).getD 0 then 1 else 0
  let c := (p.citationCount).getD ((p.citations).getD 0)
  let cb : Int := if 50 < c then 1 else 0
  (tm : Int) * 3 + (am : Int) + yb + cb

/-- `SearchAgent.score_relevance` (search_agent.py 75-105): sets
`paper["relevance_score"]` in place on every input dict, then returns
`sorted(papers, ..., reverse=True)` (a stable descending sort) of those same
dicts. First component: returned list; second: post-call state of the inputs. -/
def score_relevance (papers : List Record) (query : String) :
    List Record × List Record :=
  let scored := papers.map (fun p => setRelevance p (some (relScore p query)))
  (sortDesc (fun p => (p.relevance_score).getD 0) scored, scored)

/-- `np.isclose(a, b)` with numpy's default tolerances
`rtol=1e-5, atol=1e-8`: true iff `|a - b| <= atol + rtol * |b|`. -/
def npIsClose (a b : ℚ) : Bool :=
  decide (|a - b| ≤ 1/100000000 + (1/100000) * |b|)

structure HybridSearchRanker where
  semantic_weight : ℚ
  keyword_weight : ℚ
deriving DecidableEq

/-- `HybridSearchRanker.__init__` (vector_search.py 183-188): raises
`ValueError` unless `np.isclose(semantic_weight + keyword_weight, 1.0)`;
otherwise stores the weights exactly as given. -/
def hybridRankerInit (semantic_weight keyword_weight : ℚ) : Except String HybridSearchRanker :=
  if npIsClose (semantic_weight + keyword_weight) 1 then
    .ok ⟨semantic_weight, keyword_weight⟩
  else .error "Weights must sum to 1.0"

/-- `HybridSearchRanker.normalize_scores` (vector_search.py 205-216): min-max
normalization; an empty array is returned as is, a constant array becomes all
ones (`np.ones_like`). -/
def normalize_scores (scores : List ℚ) : List ℚ :=
  match scores with
  | [] => []
  | s :: ss =>
    let mn := ss.foldl min s
    let mx := ss.foldl max s
    if mx = mn then List.replicate (s :: ss).length 1
    else (s :: ss).map (fun x => (x - mn) / (mx - mn))

/-- `HybridSearchRanker.calculate_hybrid_scores` (vector_search.py 190-203):
shape check, then the weighted sum of the two normalized arrays. -/
def calculate_hybrid_scores (rk : HybridSearchRanker) (semantic_scores keyword_scores : List ℚ) :
    Except String (List ℚ) :=
  if semantic_scores.length = keyword_scores.length then
    .ok (List.zipWith (fun a b => rk.semantic_weight * a + rk.keyword_weight * b)
      (normalize_scores semantic_scores) (normalize_scores keyword_scores))
  else .error "Score arrays must have same shape"

/-- `HybridSearchRanker.rank_documents` (vector_search.py 218-236): length
check, stable descending sort of the (document, score) pairs by score, then
copies of the documents with `hybrid_score` set. The Python loop works on
`doc.copy()`, so the inputs are untouched: the second component is the
post-call state of the input documents. -/
def rank_documents (documents : List Record) (scores : List ℚ) :
    Except String (List Record × List Record) :=
  if documents.length = scores.length then
    .ok ((sortDesc Prod.snd (documents.zip scores)).map (fun ds => setHybrid ds.1 ds.2),
      documents)
  else .error "Number of documents must match number of scores"

/-- The sliding-window prune in `RateLimiter.acquire` (api_integrations.py
37-50 and search_agent.py 23-37): keep the timestamps younger than
`time_window`. -/
def rateLimiterPrune (time_window : ℚ) (calls : List ℚ) (now : ℚ) : List ℚ :=
  calls.filter (fun t => decide (now - t < time_window))

/-- The sleep `RateLimiter.acquire` performs when the pruned window is full:
`time_window - (now - self.calls[0]) + 0.1` seconds (then it re-runs
`acquire`); `none` when the window has room and no sleep happens. -/
def acquireSleep (max_calls : Nat) (time_window : ℚ) (calls : List ℚ) (now : ℚ) : Option ℚ :=
  let pruned := rateLimiterPrune time_window calls now
  if max_calls ≤ pruned.length then
    match pruned.head? with
    | some c0 => some (time_window - (now - c0) + 1/10)
    | none => none
  else none

/-- The `try` body of `EmbeddingGenerator.generate_embedding` (vector_search.py
57-83): raise `ValueError` when the backend vector's shape is not
`(embedding_dim,)`. -/
def generateEmbeddingTry (dim : Nat) (backendVec : List ℚ) : Except String (List ℚ) :=
  if backendVec.length = dim then .ok backendVec
  else .error "Expected embedding dimension mismatch"

/-- `EmbeddingGenerator.generate_embedding` as the caller sees it: the broad
`except` swallows the dimension error and returns `np.zeros(embedding_dim)`. -/
def generate_embedding (dim : Nat) (backendVec : List ℚ) : List ℚ :=
  match generateEmbeddingTry dim backendVec with
  | .ok e => e
  | .error _ => List.replicate dim 0

/-- The `try` body of `EmbeddingGenerator.generate_batch_embeddings`
(vector_search.py 85-110): raise unless the backend array has shape
`(len(texts), embedding_dim)`. -/
def generateBatchTry (dim n : Nat) (vs : List (List ℚ)) : Except String (List (List ℚ)) :=
  if vs.length = n ∧ ∀ row ∈ vs, row.length = dim then .ok vs
  else .error "Expected batch embeddings shape mismatch"

/-- `EmbeddingGenerator.generate_batch_embeddings` as the caller sees it: the
`except` swallows the error and returns `np.zeros((len(texts), dim))`. -/
def generate_batch_embeddings (dim n : Nat) (vs : List (List ℚ)) : List (List ℚ) :=
  match generateBatchTry dim n vs with
  | .ok e => e
  | .error _ => List.replicate n (List.replicate dim 0)

/-- Checked rational division: the model of Python `/`, which raises
`ZeroDivisionError` on a zero denominator. -/
def qdiv? (a b : ℚ) : Except String ℚ :=
  if b = 0 then .error "ZeroDivisionError" else .ok (a / b)

/-- `CoverageAnalyzer.expected_sources`; a Python set, modelled as a list in
its literal order. -/
def expectedSources : List String := ["semantic_scholar", "arxiv", "pubmed"]

def recSource (r : Record) : String := (r.source).getD "unknown"

/-- `set(r.get("source", "unknown") for r in results)`, in first-occurrence
order. -/
def sourcesOf (rs : List Record) : List String := (rs.map recSource).dedup

/-- `CoverageAnalyzer._assess_coverage_quality` (search_workflow.py 192-198). -/
def assessCoverageQuality (sources : List String) (result_count : Nat) : Except String ℚ := do
  let source_score ← qdiv? ((sources.filter (fun s => decide (s ∈ expectedSources))).length : ℚ)
    (expectedSources.length : ℚ)
  let quantity_score := min ((result_count : ℚ) / 50) 1
  let diversity_score ← qdiv? ((sources.length : ℚ)) (max (expectedSources.length : ℚ) 1)
  pure (source_score * (4/10) + quantity_score * (3/10) + diversity_score * (3/10))

/-- The coverage report `CoverageAnalyzer.analyze_coverage` builds. -/
structure Coverage where
  total_papers : Nat
  sources_covered : List String
  source_coverage : ℚ
  missing_sources : List String
  query : String
  coverage_quality : ℚ
deriving DecidableEq

/-- `CoverageAnalyzer.analyze_coverage` (search_workflow.py 90-103), with every
Python division checked. -/
def analyze_coverage (results : List Record) (query : String) : Except String Coverage := do
  let sources := sourcesOf results
  let source_coverage ← qdiv? ((sources.filter (fun s => decide (s ∈ expectedSources))).length : ℚ)
    (expectedSources.length : ℚ)
  let quality ← assessCoverageQuality sources results.length
  pure ⟨results.length, sources, source_coverage,
    expectedSources.filter (fun s => decide (¬ s ∈ sources)), query, quality⟩

/-- `collections.Counter` over the record sources, in first-occurrence order. -/
def bumpCount (s : String) : List (String × Nat) → List (String × Nat)
  | [] => [(s, 1)]
  | (t, n) :: rest => if t = s then (t, n + 1) :: rest else (t, n) :: bumpCount s rest

def sourceCounts (rs : List Record) : List (String × Nat) :=
  rs.foldl (fun acc r => bumpCount (recSource r) acc) []

/-- `CoverageAnalyzer._get_bias_recommendations` (search_workflow.py 238-250);
the percentage comparisons `count/total*100 > 70` and `< 10` are carried out
exactly (`100 * count > 70 * total` over the nonnegative total); the numeric
`:.1f` interpolation in the message text is elided. -/
def biasRecs (counts : List (String × Nat)) : List String :=
  let total := (counts.map Prod.snd).sum
  counts.foldr (fun p acc =>
    if 70 * total < 100 * p.2 then ("Reduce reliance on " ++ p.1) :: acc
    else if 100 * p.2 < 10 * total then ("Increase coverage from " ++ p.1) :: acc
    else acc) []

/-- The result of `CoverageAnalyzer.detect_source_bias`: either the
`{"error": ...}` dict for no input, or the bias report. Entropy is 0 because
`_calculate_entropy` multiplies every term by
`probability.bit_length() if hasattr(probability, ...) else 0` and floats have
no `bit_length`. -/
inductive BiasReport where
  | insufficient (msg : String)
  | report (is_biased : Bool) (dominant_source : String) (bias_score : ℚ)
      (source_distribution : List (String × Nat)) (entropy : ℚ)
      (recommendations : List String)
deriving DecidableEq

/-- `CoverageAnalyzer.detect_source_bias` (search_workflow.py 152-174). -/
def detect_source_bias (results : List Record) : Except String BiasReport :=
  let source_counts := sourceCounts results
  let total_papers := results.length
  if total_papers = 0 then .ok (.insufficient "No results to analyze")
  else do
    let max_count := (source_counts.map Prod.snd).foldl max 0
    let dominant := ((source_counts.filter (fun p => decide (p.2 = max_count))).head?).elim ""
      Prod.fst
    let bias_score ← qdiv? (max_count : ℚ) (total_papers : ℚ)
    pure (.report (decide ((7:ℚ)/10 < bias_score)) dominant bias_score source_counts 0
      (biasRecs source_counts))

/-- The loop of `APIIntegrationManager.search_with_retry` (api_integrations.py
494-511). `outcomes k` is what the wrapped call does on attempt `k`: an
exception or a result list. Returns (records handed to the caller, backoff
delays slept, number of calls made); the fuel starts at `max_retries + 1`,
the iteration count of `range(max_retries + 1)`. -/
def retryAux (base_delay : ℚ) (max_retries : Nat) (outcomes : Nat → Except String (List Record)) :
    Nat → Nat → List Record × List ℚ × Nat
  | _, 0 => ([], [], 0)
  | attempt, fuel + 1 =>
    match outcomes attempt with
    | .ok res =>
      if res.isEmpty then
        -- empty success: no sleep, straight to the next iteration
        let next := retryAux base_delay max_retries outcomes (attempt + 1) fuel
        (next.1, next.2.1, next.2.2 + 1)
      else (res, [], 1)
    | .error _ =>
      if attempt = max_retries then ([], [], 1)
      else
        let next := retryAux base_delay max_retries outcomes (attempt + 1) fuel
        (next.1, base_delay * 2 ^ attempt :: next.2.1, next.2.2 + 1)

def search_with_retry (max_retries : Nat) (base_delay : ℚ)
    (outcomes : Nat → Except String (List Record)) : List Record × List ℚ × Nat :=
  retryAux base_delay max_retries outcomes 0 (max_retries + 1)

/-- Is an `Except` the error case? -/
def isErr {ε α : Type} : Except ε α → Bool
  | .error _ => true
  | .ok _ => false


/-- The score `rank_documents` wrote into a ranked copy. -/
def hybridKey (r : Record) : ℚ := (r.hybrid_score).getD 0

/-- The score `rank_results` wrote into a record. -/
def combinedKey (r : Record) : ℚ := (r.combined_score).getD 0

/-- Two records share none of `deduplicate_results`s three keys. -/
def keysDisjoint (r1 r2 : Record) : Prop :=
  (∀ s, doiKey r1 = some s → ¬ doiKey r2 = some s)
  ∧ (∀ s, titleKey r1 = some s → ¬ titleKey r2 = some s)
  ∧ (∀ s, idKey r1 = some s → ¬ idKey r2 = some s)

/-- Two records do not carry the same nonempty DOI string (the case-sensitive
comparison `remove_duplicates` performs). -/
def doiDistinct (p1 p2 : Record) : Prop :=
  ∀ s, ¬ s = "" → (p1.doi).getD "" = s → ¬ (p2.doi).getD "" = s

theorem keyMem_mono {k : Option String} {s s' : List String} (hs : s ⊆ s') :
    keyMem k s = true → keyMem k s' = true := by
  cases k with
  | none => simp [keyMem]
  | some x =>
    simp only [keyMem, decide_eq_true_eq]
    exact fun hx => hs hx

theorem subset_pushKey (k : Option String) (s : List String) : s ⊆ pushKey k s := by
  cases k with
  | none => exact fun a ha => ha
  | some x => exact List.subset_cons_of_subset x (fun a ha => ha)

theorem pushKey_subset {k : Option String} {s s' : List String} (hs : s ⊆ s') :
    pushKey k s ⊆ pushKey k s' := by
  cases k with
  | none => exact hs
  | some x => exact List.cons_subset_cons x hs

theorem dedupGo_idem : ∀ (rs : List Record) (d t i d0 t0 i0 : List String),
    d0 ⊆ d → t0 ⊆ t → i0 ⊆ i →
    dedupGo d0 t0 i0 (dedupGo d t i rs) = dedupGo d t i rs := by
  intro rs
  induction rs with
  | nil => intro d t i d0 t0 i0 _ _ _; simp [dedupGo]
  | cons r rs ih =>
    intro d t i d0 t0 i0 hd ht hi
    by_cases h1 : keyMem (doiKey r) d = true
    · simp only [dedupGo, h1, if_true]
      exact ih d t i d0 t0 i0 hd ht hi
    · by_cases h2 : keyMem (titleKey r) t = true
      · simp only [dedupGo, h1, h2, if_true, if_false]
        exact ih (pushKey (doiKey r) d) t i d0 t0 i0
          (hd.trans (subset_pushKey _ d)) ht hi
      · by_cases h3 : keyMem (idKey r) i = true
        · simp only [dedupGo, h1, h2, h3, if_true, if_false]
          exact ih (pushKey (doiKey r) d) (pushKey (titleKey r) t) i d0 t0 i0
            (hd.trans (subset_pushKey _ d)) (ht.trans (subset_pushKey _ t)) hi
        · have h1' : ¬ keyMem (doiKey r) d0 = true := fun hc => h1 (keyMem_mono hd hc)
          have h2' : ¬ keyMem (titleKey r) t0 = true := fun hc => h2 (keyMem_mono ht hc)
          have h3' : ¬ keyMem (idKey r) i0 = true := fun hc => h3 (keyMem_mono hi hc)
          simp only [dedupGo, h1, h2, h3, h1', h2', h3', if_false]
          exact congrArg (r :: ·)
            (ih (pushKey (doiKey r) d) (pushKey (titleKey r) t) (pushKey (idKey r) i)
              (pushKey (doiKey r) d0) (pushKey (titleKey r) t0) (pushKey (idKey r) i0)
              (pushKey_subset hd) (pushKey_subset ht) (pushKey_subset hi))

theorem removeDupGo_idem (h : String → String) :
    ∀ (ps : List Record) (d t d0 t0 : List String), d0 ⊆ d → t0 ⊆ t →
    removeDupGo h d0 t0 (removeDupGo h d t ps) = removeDupGo h d t ps := by
  intro ps
  induction ps with
  | nil => intro d t d0 t0 _ _; simp [removeDupGo]
  | cons p ps ih =>
    intro d t d0 t0 hd ht
    by_cases c1 : ¬ (p.doi).getD "" = "" ∧ (p.doi).getD "" ∈ d
    · simp only [removeDupGo, if_pos c1]
      exact ih d t d0 t0 hd ht
    · by_cases c2 : (p.doi).getD "" = "" ∧ h (stripStr (lowerStr ((p.title).getD ""))) ∈ t
      · simp only [removeDupGo, if_neg c1, if_pos c2]
        exact ih d t d0 t0 hd ht
      · have c1' : ¬ (¬ (p.doi).getD "" = "" ∧ (p.doi).getD "" ∈ d0) :=
          fun hc => c1 ⟨hc.1, hd hc.2⟩
        have c2' : ¬ ((p.doi).getD "" = "" ∧ h (stripStr (lowerStr ((p.title).getD ""))) ∈ t0) :=
          fun hc => c2 ⟨hc.1, ht hc.2⟩
        simp only [removeDupGo, if_neg c1, if_neg c2, if_neg c1', if_neg c2']
        refine congrArg (p :: ·) (ih _ _ _ _ ?_ ?_)
        · by_cases hdoi : (p.doi).getD "" = ""
          · simpa [hdoi] using hd
          · simpa [hdoi] using List.cons_subset_cons ((p.doi).getD "") hd
        · by_cases hdoi : (p.doi).getD "" = ""
          · simpa [hdoi] using
              List.cons_subset_cons (h (stripStr (lowerStr ((p.title).getD "")))) ht
          · simpa [hdoi] using ht

/-- Claim C1: deduplication is idempotent. Applying
`ResultAggregator.deduplicate_results` twice yields the same list as applying
it once, and likewise for `SearchAgent.remove_duplicates` (for every title
hash function standing in for md5). -/
theorem c1_dedup_idempotent :
    (∀ rs : List Record, deduplicate_results (deduplicate_results rs) = deduplicate_results rs)
    ∧ ∀ (h : String → String) (ps : List Record),
        remove_duplicates h (remove_duplicates h ps) = remove_duplicates h ps := by
  refine ⟨fun rs => ?_, fun h ps => ?_⟩
  · exact dedupGo_idem rs [] [] [] [] [] []
      (fun a ha => ha) (fun a ha => ha) (fun a ha => ha)
  · exact removeDupGo_idem h ps [] [] [] [] (fun a ha => ha) (fun a ha => ha)

theorem keyMem_false_mono {k : Option String} {s s' : List String} (hs : s ⊆ s') :
    keyMem k s' = false → keyMem k s = false := by
  intro h
  cases hk : keyMem k s with
  | false => rfl
  | true => rw [keyMem_mono hs hk] at h; exact absurd h (by simp)

theorem keyMem_nil (k : Option String) : keyMem k [] = false := by
  cases k <;> simp [keyMem]

theorem dedupGo_sublist : ∀ (rs : List Record) (d t i : List String),
    List.Sublist (dedupGo d t i rs) rs := by
  intro rs
  induction rs with
  | nil => intro d t i; simp [dedupGo]
  | cons r rs ih =>
    intro d t i
    by_cases h1 : keyMem (doiKey r) d = true
    · simp only [dedupGo, h1, if_true]
      exact (ih d t i).cons r
    · by_cases h2 : keyMem (titleKey r) t = true
      · simp only [dedupGo, h1, h2, if_true, if_false]
        exact (ih _ t i).cons r
      · by_cases h3 : keyMem (idKey r) i = true
        · simp only [dedupGo, h1, h2, h3, if_true, if_false]
          exact (ih _ _ i).cons r
        · simp only [dedupGo, h1, h2, h3, if_false]
          exact (ih _ _ _).cons₂ r

theorem dedupGo_key_unseen : ∀ (rs : List Record) (d t i : List String) (r : Record),
    r ∈ dedupGo d t i rs →
    keyMem (doiKey r) d = false ∧ keyMem (titleKey r) t = false ∧ keyMem (idKey r) i = false := by
  intro rs
  induction rs with
  | nil => intro d t i r hr; simp [dedupGo] at hr
  | cons q rs ih =>
    intro d t i r hr
    by_cases h1 : keyMem (doiKey q) d = true
    · rw [dedupGo, if_pos h1] at hr
      exact ih d t i r hr
    · by_cases h2 : keyMem (titleKey q) t = true
      · rw [dedupGo, if_neg h1, if_pos h2] at hr
        obtain ⟨a, b, c⟩ := ih _ t i r hr
        exact ⟨keyMem_false_mono (subset_pushKey _ d) a, b, c⟩
      · by_cases h3 : keyMem (idKey q) i = true
        · rw [dedupGo, if_neg h1, if_neg h2, if_pos h3] at hr
          obtain ⟨a, b, c⟩ := ih _ _ i r hr
          exact ⟨keyMem_false_mono (subset_pushKey _ d) a,
            keyMem_false_mono (subset_pushKey _ t) b, c⟩
        · rw [dedupGo, if_neg h1, if_neg h2, if_neg h3] at hr
          rcases List.mem_cons.mp hr with hq | hr
          · subst hq
            exact ⟨by simpa using h1, by simpa using h2, by simpa using h3⟩
          · obtain ⟨a, b, c⟩ := ih _ _ _ r hr
            exact ⟨keyMem_false_mono (subset_pushKey _ d) a,
              keyMem_false_mono (subset_pushKey _ t) b,
              keyMem_false_mono (subset_pushKey _ i) c⟩

theorem keyMem_pushKey_self {k : Option String} {s : String} (hk : k = some s)
    (seen : List String) : keyMem k (pushKey k seen) = true := by
  subst hk; simp [keyMem, pushKey]

theorem dedupGo_pairwise : ∀ (rs : List Record) (d t i : List String),
    List.Pairwise keysDisjoint (dedupGo d t i rs) := by
  intro rs
  induction rs with
  | nil => intro d t i; simp [dedupGo]
  | cons r rs ih =>
    intro d t i
    by_cases h1 : keyMem (doiKey r) d = true
    · simpa only [dedupGo, h1, if_true] using ih d t i
    · by_cases h2 : keyMem (titleKey r) t = true
      · simpa only [dedupGo, h1, h2, if_true, if_false] using ih _ t i
      · by_cases h3 : keyMem (idKey r) i = true
        · simpa only [dedupGo, h1, h2, h3, if_true, if_false] using ih _ _ i
        · simp only [dedupGo, h1, h2, h3, if_false]
          refine List.Pairwise.cons (fun r2 hr2 => ?_) (ih _ _ _)
          obtain ⟨a, b, c⟩ := dedupGo_key_unseen rs _ _ _ r2 hr2
          refine ⟨fun s hs hs2 => ?_, fun s hs hs2 => ?_, fun s hs hs2 => ?_⟩
          · rw [hs2] at a
            rw [show keyMem (some s) (pushKey (doiKey r) d) = true from
              hs ▸ keyMem_pushKey_self hs d] at a
            exact absurd a (by simp)
          · rw [hs2] at b
            rw [show keyMem (some s) (pushKey (titleKey r) t) = true from
              hs ▸ keyMem_pushKey_self hs t] at b
            exact absurd b (by simp)
          · rw [hs2] at c
            rw [show keyMem (some s) (pushKey (idKey r) i) = true from
              hs ▸ keyMem_pushKey_self hs i] at c
            exact absurd c (by simp)

theorem removeDupGo_sublist (h : String → String) : ∀ (ps : List Record) (d t : List String),
    List.Sublist (removeDupGo h d t ps) ps := by
  intro ps
  induction ps with
  | nil => intro d t; simp [removeDupGo]
  | cons p ps ih =>
    intro d t
    by_cases c1 : ¬ (p.doi).getD "" = "" ∧ (p.doi).getD "" ∈ d
    · simp only [removeDupGo, if_pos c1]
      exact (ih d t).cons p
    · by_cases c2 : (p.doi).getD "" = "" ∧ h (stripStr (lowerStr ((p.title).getD ""))) ∈ t
      · simp only [removeDupGo, if_neg c1, if_pos c2]
        exact (ih d t).cons p
      · simp only [removeDupGo, if_neg c1, if_neg c2]
        exact (ih _ _).cons₂ p

theorem removeDupGo_doi_unseen (h : String → String) :
    ∀ (ps : List Record) (d t : List String) (p : Record), p ∈ removeDupGo h d t ps →
    ¬ (p.doi).getD "" = "" → (p.doi).getD "" ∉ d := by
  intro ps
  induction ps with
  | nil => intro d t p hp; simp [removeDupGo] at hp
  | cons q ps ih =>
    intro d t p hp hne
    by_cases c1 : ¬ (q.doi).getD "" = "" ∧ (q.doi).getD "" ∈ d
    · rw [removeDupGo] at hp
      simp only [if_pos c1] at hp
      exact ih d t p hp hne
    · by_cases c2 : (q.doi).getD "" = "" ∧ h (stripStr (lowerStr ((q.title).getD ""))) ∈ t
      · rw [removeDupGo] at hp
        simp only [if_neg c1, if_pos c2] at hp
        exact ih d t p hp hne
      · rw [removeDupGo] at hp
        simp only [if_neg c1, if_neg c2] at hp
        rcases List.mem_cons.mp hp with hq | hp
        · subst hq
          intro hmem
          exact c1 ⟨hne, hmem⟩
        · intro hmem
          refine ih _ _ p hp hne ?_
          by_cases hqd : (q.doi).getD "" = ""
          · simpa [hqd] using hmem
          · simp only [if_neg hqd]
            exact List.mem_cons_of_mem _ hmem

theorem removeDupGo_pairwise (h : String → String) :
    ∀ (ps : List Record) (d t : List String),
    List.Pairwise doiDistinct (removeDupGo h d t ps) := by
  intro ps
  induction ps with
  | nil => intro d t; simp [removeDupGo]
  | cons p ps ih =>
    intro d t
    by_cases c1 : ¬ (p.doi).getD "" = "" ∧ (p.doi).getD "" ∈ d
    · simpa only [removeDupGo, if_pos c1] using ih d t
    · by_cases c2 : (p.doi).getD "" = "" ∧ h (stripStr (lowerStr ((p.title).getD ""))) ∈ t
      · simpa only [removeDupGo, if_neg c1, if_pos c2] using ih d t
      · simp only [removeDupGo, if_neg c1, if_neg c2]
        refine List.Pairwise.cons (fun p2 hp2 => ?_) (ih _ _)
        intro s hs hps hp2s
        have hne2 : ¬ (p2.doi).getD "" = "" := by rw [hp2s]; exact hs
        have := removeDupGo_doi_unseen h ps _ _ p2 hp2 hne2
        rw [hp2s] at this
        have hpd : ¬ (p.doi).getD "" = "" := by rw [hps]; exact hs
        simp only [if_neg hpd] at this
        exact this (by rw [hps]; exact List.mem_cons_self _ _)

/-- Counterexample to claim C2 as stated. (1) The record with DOI "d" matches
no earlier DOI, yet `deduplicate_results` drops it because its title matches an
earlier record's title: the title check is NOT restricted to records without a
DOI. (2) Internal whitespace is not collapsed: "a  b" and "a b" both survive
the code although the spec's normalization makes them duplicates. (3)
`remove_duplicates` compares DOIs case-sensitively: "10.1/X" and "10.1/x" both
survive. `dedupSpec` is the behaviour the claim's wording prescribes. -/
theorem c2_counterexample :
    deduplicate_results [{ title := some "t" }, { doi := some "d", title := some "t" }] =
      [{ title := some "t" }]
    ∧ dedupSpec [{ title := some "t" }, { doi := some "d", title := some "t" }] =
      [{ title := some "t" }, { doi := some "d", title := some "t" }]
    ∧ deduplicate_results [{ title := some "a  b" }, { title := some "a b" }] =
      [({ title := some "a  b" } : Record), { title := some "a b" }]
    ∧ dedupSpec [{ title := some "a  b" }, { title := some "a b" }] =
      [{ title := some "a  b" }]
    ∧ remove_duplicates (fun s => s) [{ doi := some "10.1/X" }, { doi := some "10.1/x" }] =
      [({ doi := some "10.1/X" } : Record), { doi := some "10.1/x" }]
    ∧ dedupSpec [{ doi := some "10.1/X" }, { doi := some "10.1/x" }] =
      [{ doi := some "10.1/X" }] := by
  decide

/-- Claim C2, amended to what the code does. `deduplicate_results`: the output
is a subsequence of the input (first-seen wins, the leading record is always
kept); no two kept records share a case-insensitively equal DOI, nor an equal
lowercased end-stripped (not whitespace-collapsed) title — the title check
applies to every record, DOI present or not — nor an equal nonempty id.
`remove_duplicates`: the output is a subsequence of the input, the leading
record is always kept, and no two kept records share an equal nonempty DOI
compared case-SENSITIVELY. -/
theorem c2_amended :
    (∀ rs : List Record, List.Sublist (deduplicate_results rs) rs)
    ∧ (∀ rs : List Record, List.Pairwise keysDisjoint (deduplicate_results rs))
    ∧ (∀ (r : Record) (rs : List Record), (deduplicate_results (r :: rs)).head? = some r)
    ∧ (∀ (h : String → String) (ps : List Record),
        List.Sublist (remove_duplicates h ps) ps)
    ∧ (∀ (h : String → String) (ps : List Record),
        List.Pairwise doiDistinct (remove_duplicates h ps))
    ∧ (∀ (h : String → String) (p : Record) (ps : List Record),
        (remove_duplicates h (p :: ps)).head? = some p) := by
  refine ⟨fun rs => dedupGo_sublist rs [] [] [],
    fun rs => dedupGo_pairwise rs [] [] [],
    fun r rs => ?_,
    fun h ps => removeDupGo_sublist h ps [] [],
    fun h ps => removeDupGo_pairwise h ps [] [],
    fun h p ps => ?_⟩
  · simp [deduplicate_results, dedupGo, keyMem_nil]
  · simp [remove_duplicates, removeDupGo]

/-- Counterexample to claim C3 as stated: the weight pair (0.7, 0.300005) has
|sum - 1| = 5e-6 > 1e-6, yet `HybridSearchRanker.__init__` accepts it, because
`np.isclose` uses rtol=1e-5, atol=1e-8 (tolerance 1.00001e-5 against 1.0).
And the aggregator side has no construction check at all: its fixed source
weights (1.2, 1.1, 1.0) do not sum to 1 and construction always succeeds. -/
theorem c3_counterexample :
    |((7:ℚ)/10 + 300005/1000000) - 1| > 1/1000000
    ∧ hybridRankerInit (7/10) (300005/1000000) =
        Except.ok ⟨7/10, 300005/1000000⟩
    ∧ resultAggregatorInit.source_weights.map Prod.snd = [12/10, 11/10, 1]
    ∧ ((12:ℚ)/10 + 11/10 + 1 ≠ 1) := by
  have habs : |((7:ℚ)/10 + 300005/1000000) - 1| = 1/200000 := by
    rw [show ((7:ℚ)/10 + 300005/1000000) - 1 = 1/200000 by norm_num]
    exact abs_of_pos (by norm_num)
  have hclose : npIsClose ((7:ℚ)/10 + 300005/1000000) 1 = true := by
    simp only [npIsClose, decide_eq_true_eq]
    rw [show (7:ℚ)/10 + 300005/1000000 - 1 = 1/200000 by norm_num,
      abs_of_pos (by norm_num : (0:ℚ) < 1/200000)]
    norm_num
  refine ⟨by rw [habs]; norm_num, ?_, rfl, by norm_num⟩
  simp [hybridRankerInit, hclose]

/-- Claim C3, amended. `HybridSearchRanker` construction fails exactly when
`np.isclose(sum, 1.0)` fails, i.e. when |wSemantic + wLexical - 1| exceeds
1e-8 + 1e-5 (not 1e-6); on success the weights are stored exactly as given
(never renormalized). `ResultAggregator.__init__` performs no weight
validation: it always succeeds and stores the fixed per-source multipliers
1.2, 1.1, 1.0, which do not sum to 1. -/
theorem c3_amended :
    (∀ sw kw : ℚ,
      (hybridRankerInit sw kw).map (fun r => (r.semantic_weight, r.keyword_weight)) =
        if npIsClose (sw + kw) 1 then Except.ok (sw, kw)
        else Except.error "Weights must sum to 1.0")
    ∧ (∀ sw kw : ℚ, npIsClose (sw + kw) 1 = true ↔ |sw + kw - 1| ≤ 1001/100000000)
    ∧ resultAggregatorInit.source_weights.map Prod.snd = [12/10, 11/10, 1]
    ∧ ((12:ℚ)/10 + 11/10 + 1 ≠ 1) := by
  refine ⟨fun sw kw => ?_, fun sw kw => ?_, rfl, by norm_num⟩
  · by_cases hc : npIsClose (sw + kw) 1 <;> simp [hybridRankerInit, hc, Except.map]
  · simp only [npIsClose, decide_eq_true_eq]
    norm_num

theorem insertByDesc_perm {α β : Type} [LinearOrder β] (key : α → β) (x : α) (l : List α) :
    (insertByDesc key x l).Perm (x :: l) := by
  induction l with
  | nil => simp [insertByDesc]
  | cons y ys ih =>
    by_cases hc : key x < key y
    · simp only [insertByDesc, if_pos hc]
      exact (ih.cons y).trans (List.Perm.swap x y ys)
    · simp [insertByDesc, hc]

theorem sortDesc_perm {α β : Type} [LinearOrder β] (key : α → β) (l : List α) :
    (sortDesc key l).Perm l := by
  induction l with
  | nil => simp [sortDesc]
  | cons x xs ih => exact (insertByDesc_perm key x (sortDesc key xs)).trans (ih.cons x)

theorem insertByDesc_sorted {α β : Type} [LinearOrder β] (key : α → β) (x : α) (l : List α)
    (hl : List.Pairwise (fun a b => key b ≤ key a) l) :
    List.Pairwise (fun a b => key b ≤ key a) (insertByDesc key x l) := by
  induction l with
  | nil => simp [insertByDesc]
  | cons y ys ih =>
    rw [List.pairwise_cons] at hl
    obtain ⟨hy, hys⟩ := hl
    by_cases hc : key x < key y
    · simp only [insertByDesc, if_pos hc]
      rw [List.pairwise_cons]
      refine ⟨fun b hb => ?_, ih hys⟩
      rcases List.mem_cons.mp ((insertByDesc_perm key x ys).mem_iff.mp hb) with hb | hb
      · subst hb; exact le_of_lt hc
      · exact hy b hb
    · simp only [insertByDesc, if_neg hc]
      rw [List.pairwise_cons]
      refine ⟨fun b hb => ?_, List.pairwise_cons.mpr ⟨hy, hys⟩⟩
      rcases List.mem_cons.mp hb with hb | hb
      · subst hb; exact not_lt.mp hc
      · exact (hy b hb).trans (not_lt.mp hc)

theorem sortDesc_sorted {α β : Type} [LinearOrder β] (key : α → β) (l : List α) :
    List.Pairwise (fun a b => key b ≤ key a) (sortDesc key l) := by
  induction l with
  | nil => simp [sortDesc]
  | cons x xs ih => exact insertByDesc_sorted key x (sortDesc key xs) ih

theorem insertByDesc_filter {α β : Type} [LinearOrder β] (key : α → β) (x : α) (l : List α)
    (q : β) :
    (insertByDesc key x l).filter (fun a => decide (key a = q)) =
      if key x = q then x :: l.filter (fun a => decide (key a = q))
      else l.filter (fun a => decide (key a = q)) := by
  induction l with
  | nil => by_cases hx : key x = q <;> simp [insertByDesc, hx]
  | cons y ys ih =>
    by_cases hc : key x < key y
    · simp only [insertByDesc, if_pos hc]
      by_cases hx : key x = q
      · have hy : ¬ key y = q := fun hyq => absurd hc (by rw [hx, hyq]; exact lt_irrefl q)
        simp [List.filter_cons, ih, hx, hy]
      · simp [List.filter_cons, ih, hx]
    · simp only [insertByDesc, if_neg hc]
      by_cases hx : key x = q <;> simp [List.filter_cons, hx]

theorem sortDesc_filter {α β : Type} [LinearOrder β] (key : α → β) (l : List α) (q : β) :
    (sortDesc key l).filter (fun a => decide (key a = q)) =
      l.filter (fun a => decide (key a = q)) := by
  induction l with
  | nil => rfl
  | cons x xs ih =>
    have hstep : sortDesc key (x :: xs) = insertByDesc key x (sortDesc key xs) := rfl
    rw [hstep, insertByDesc_filter]
    by_cases hx : key x = q <;> simp [List.filter_cons, hx, ih]

/-- Claim C4: `HybridSearchRanker.rank_documents` on equal-length inputs
returns (without error) the documents sorted by score in descending order;
stability: for every score value, the ranked records carrying that score are
exactly the input (document, score) pairs with that score, in input order; the
output is a permutation of the score-annotated inputs; the inputs themselves
are returned unchanged as the post-state. `ResultAggregator.rank_results` is
likewise descending and stable on its computed scores. Both are deterministic
functions, so ranking twice yields the identical ordering. -/
theorem c4_rank_stable :
    (∀ (documents : List Record) (scores : List ℚ),
      documents.length = scores.length →
      ∃ out : List Record,
        rank_documents documents scores = Except.ok (out, documents)
        ∧ List.Pairwise (fun a b => hybridKey b ≤ hybridKey a) out
        ∧ (∀ q : ℚ, out.filter (fun r => decide (hybridKey r = q)) =
            ((documents.zip scores).filter (fun ds => decide (ds.2 = q))).map
              (fun ds => setHybrid ds.1 ds.2))
        ∧ out.Perm ((documents.zip scores).map (fun ds => setHybrid ds.1 ds.2)))
    ∧ (∀ (results : List Record) (query : String) (currentYear : Int),
        List.Pairwise (fun a b => combinedKey b ≤ combinedKey a)
          (rank_results results query currentYear).1
        ∧ (∀ q : ℚ,
            ((rank_results results query currentYear).1).filter
              (fun r => decide (combinedKey r = q)) =
            ((rank_results results query currentYear).2).filter
              (fun r => decide (combinedKey r = q)))
        ∧ ((rank_results results query currentYear).1).Perm
            (rank_results results query currentYear).2) := by
  constructor
  · intro documents scores hlen
    refine ⟨(sortDesc Prod.snd (documents.zip scores)).map (fun ds => setHybrid ds.1 ds.2),
      ?_, ?_, ?_, ?_⟩
    · simp [rank_documents, hlen]
    · refine List.Pairwise.map _ (fun a b hab => ?_) (sortDesc_sorted Prod.snd _)
      simpa [hybridKey, setHybrid] using hab
    · intro q
      rw [List.filter_map]
      have hpred : ((fun r => decide (hybridKey r = q)) ∘ (fun ds => setHybrid ds.1 ds.2)) =
          (fun ds : Record × ℚ => decide (ds.2 = q)) := by
        funext ds
        simp [hybridKey, setHybrid]
      rw [hpred, sortDesc_filter]
    · exact (sortDesc_perm _ _).map _
  · intro results query currentYear
    refine ⟨sortDesc_sorted _ _, fun q => ?_, sortDesc_perm _ _⟩
    exact sortDesc_filter (fun r => combinedKey r) _ q

/-- Witness for C4: two documents with equal scores keep their input order. -/
theorem c4_witness :
    ∃ out : List Record,
      rank_documents [{ title := some "p1" }, { title := some "p2" }] [(1:ℚ)/2, 1/2] =
        Except.ok (out, [{ title := some "p1" }, { title := some "p2" }])
      ∧ List.Pairwise (fun a b => hybridKey b ≤ hybridKey a) out
      ∧ (∀ q : ℚ, out.filter (fun r => decide (hybridKey r = q)) =
          (([({ title := some "p1" } : Record), { title := some "p2" }].zip
              [(1:ℚ)/2, 1/2]).filter (fun ds => decide (ds.2 = q))).map
            (fun ds => setHybrid ds.1 ds.2))
      ∧ out.Perm (([({ title := some "p1" } : Record), { title := some "p2" }].zip
          [(1:ℚ)/2, 1/2]).map (fun ds => setHybrid ds.1 ds.2)) :=
  c4_rank_stable.1 [{ title := some "p1" }, { title := some "p2" }] [(1:ℚ)/2, 1/2] rfl

/-- Counterexample to claim C5 as stated: limiter (max_calls=1, time_window=1)
with one recorded call at t=0, acquiring at now=0.5. The claimed sleep is
exactly `time_window - age = 0.5`; the code sleeps
`time_window - (now - calls[0]) + 0.1 = 0.6`. -/
theorem c5_counterexample :
    acquireSleep 1 1 [0] (1/2) = some (3/5)
    ∧ ((3:ℚ)/5 ≠ 1 - ((1:ℚ)/2 - 0)) := by
  have hprune : rateLimiterPrune 1 [0] (1/2) = [0] := by
    simp [rateLimiterPrune, List.filter_cons]
    norm_num
  constructor
  · simp only [acquireSleep, hprune]
    norm_num
  · norm_num

/-- Claim C5, amended: when the pruned window is full, `acquire` sleeps
`time_window - (now - oldest) + 0.1` seconds — the claimed quantity plus the
extra 0.1 the code adds — before re-running itself; and the sliding window is
maintained: exactly the timestamps with `now - t < time_window` survive the
prune. -/
theorem c5_amended :
    (∀ (max_calls : Nat) (time_window now c0 : ℚ) (calls cs : List ℚ),
      rateLimiterPrune time_window calls now = c0 :: cs →
      max_calls ≤ (c0 :: cs).length →
      acquireSleep max_calls time_window calls now =
        some (time_window - (now - c0) + 1/10))
    ∧ (∀ (time_window now t : ℚ) (calls : List ℚ),
        t ∈ rateLimiterPrune time_window calls now ↔ t ∈ calls ∧ now - t < time_window) := by
  constructor
  · intro mc tw now c0 calls cs hp hlen
    simp only [acquireSleep, hp]
    rw [if_pos hlen]
    rfl
  · intro tw now t calls
    simp [rateLimiterPrune, List.mem_filter]

/-- Witness for C5 at the counterexample state: window full, oldest call aged
0.5, sleep 1 - 0.5 + 0.1. -/
theorem c5_witness :
    rateLimiterPrune 1 [0] (1/2) = [(0:ℚ)]
    ∧ 1 ≤ ([(0:ℚ)]).length
    ∧ acquireSleep 1 1 [0] (1/2) = some (1 - ((1:ℚ)/2 - 0) + 1/10) := by
  have hprune : rateLimiterPrune 1 [0] (1/2) = [(0:ℚ)] := by
    simp [rateLimiterPrune, List.filter_cons]
    norm_num
  exact ⟨hprune, by simp,
    c5_amended.1 1 1 (1/2) 0 [0] [] hprune (by simp)⟩

/-- Counterexample to claim C6 as stated: a backend vector of length 2 against
configured dimension 3 does raise a ValueError inside the `try`, but the broad
`except` swallows it and the caller receives the substitute all-zeros vector —
no error surfaces. Likewise for a ragged batch. -/
theorem c6_counterexample :
    generate_embedding 3 [1, 2] = [0, 0, 0]
    ∧ generate_batch_embeddings 3 2 [[1, 2, 3], [4, 5]] = [[0, 0, 0], [0, 0, 0]]
    ∧ isErr (generateEmbeddingTry 3 [1, 2]) = true
    ∧ isErr (generateBatchTry 3 2 [[1, 2, 3], [4, 5]]) = true := by
  exact ⟨rfl, rfl, rfl, rfl⟩

/-- Claim C6, amended: on a shape mismatch the internal ValueError is raised
but caught, and the caller receives `np.zeros(dim)` (resp. the zero batch) —
a substitute vector, not an error; on a shape match the backend vector is
passed through unchanged; in every case the returned vector has the configured
dimension. -/
theorem c6_amended :
    (∀ (dim : Nat) (v : List ℚ), (generate_embedding dim v).length = dim)
    ∧ (∀ (dim : Nat) (v : List ℚ), v.length = dim → generate_embedding dim v = v)
    ∧ (∀ (dim : Nat) (v : List ℚ), ¬ v.length = dim →
        isErr (generateEmbeddingTry dim v) = true
        ∧ generate_embedding dim v = List.replicate dim 0)
    ∧ (∀ (dim n : Nat) (vs : List (List ℚ)),
        ¬ (vs.length = n ∧ ∀ row ∈ vs, row.length = dim) →
        isErr (generateBatchTry dim n vs) = true
        ∧ generate_batch_embeddings dim n vs = List.replicate n (List.replicate dim 0))
    ∧ (∀ (dim n : Nat) (vs : List (List ℚ)),
        vs.length = n → (∀ row ∈ vs, row.length = dim) →
        generate_batch_embeddings dim n vs = vs) := by
  refine ⟨fun dim v => ?_, fun dim v hv => ?_, fun dim v hv => ?_,
    fun dim n vs hvs => ?_, fun dim n vs h1 h2 => ?_⟩
  · by_cases hv : v.length = dim
    · simp [generate_embedding, generateEmbeddingTry, hv]
    · simp [generate_embedding, generateEmbeddingTry, hv]
  · simp [generate_embedding, generateEmbeddingTry, hv]
  · constructor
    · simp [generateEmbeddingTry, hv, isErr]
    · simp [generate_embedding, generateEmbeddingTry, hv]
  · constructor
    · simp only [generateBatchTry, if_neg hvs]
      rfl
    · simp only [generate_batch_embeddings, generateBatchTry, if_neg hvs]
  · have hc : vs.length = n ∧ ∀ row ∈ vs, row.length = dim := ⟨h1, h2⟩
    simp only [generate_batch_embeddings, generateBatchTry, if_pos hc]

/-- Witness for C6: a concrete mismatched vector yields zeros, a matched one
passes through. -/
theorem c6_witness :
    (isErr (generateEmbeddingTry 3 [(1:ℚ), 2]) = true
      ∧ generate_embedding 3 [(1:ℚ), 2] = List.replicate 3 0)
    ∧ generate_embedding 3 [(5:ℚ), 6, 7] = [5, 6, 7] :=
  ⟨c6_amended.2.2.1 3 [1, 2] (by decide),
    c6_amended.2.1 3 [5, 6, 7] rfl⟩

/-- Claim C7: on the empty record list both coverage entry points return
well-formed reports without raising: `analyze_coverage([], query)` returns the
zero-coverage report (every division has a nonzero denominator, so no
ZeroDivisionError and no NaN), and `detect_source_bias([])` returns the
explicit insufficient-data report. -/
theorem c7_empty_coverage :
    (∀ query : String,
      analyze_coverage [] query = Except.ok ⟨0, [], 0, expectedSources, query, 0⟩)
    ∧ detect_source_bias [] = Except.ok (BiasReport.insufficient "No results to analyze") := by
  have hquality : assessCoverageQuality [] 0 = Except.ok 0 := by
    simp [assessCoverageQuality, qdiv?, expectedSources]
    norm_num
    show Except.ok ((0:ℚ) * (2/5)) = Except.ok 0
    norm_num
  constructor
  · intro query
    simp [analyze_coverage, sourcesOf, qdiv?, expectedSources, hquality]
    rfl
  · rfl

theorem mapEqSelfIff {α : Type} (f : α → α) : ∀ l : List α, l.map f = l ↔ ∀ x ∈ l, f x = x := by
  intro l
  induction l with
  | nil => simp
  | cons x xs ih => simp [ih]

theorem setCombined_eq_self (r : Record) (s : Option ℚ) :
    setCombined r s = r ↔ r.combined_score = s := by
  cases r
  simp [setCombined, Record.mk.injEq, eq_comm]

/-- Counterexample to claim C8 as stated: after `rank_results` (and after
`score_relevance`) the input record is no longer equal to what was passed in —
the score key was written into the input dict in place, not onto a copy. -/
theorem c8_counterexample :
    ¬ ((rank_results [{ title := some "alpha" }] "q" 2025).2 = [{ title := some "alpha" }])
    ∧ ¬ ((score_relevance [{ title := some "alpha" }] "q").2 = [{ title := some "alpha" }]) := by
  constructor
  · intro h
    have hmap := congrArg (fun l => l.map Record.combined_score) h
    simp [rank_results, setCombined] at hmap
  · intro h
    have hmap := congrArg (fun l => l.map Record.relevance_score) h
    simp [score_relevance, setRelevance] at hmap

/-- Claim C8, amended: `rank_documents` really does not touch its inputs (the
post-state equals the input list, score fields only on the returned copies),
but `rank_results` and `score_relevance` mutate every input record in place,
writing the computed score into it; the inputs survive unchanged if and only
if every record already carried exactly its computed score. -/
theorem c8_amended :
    (∀ (documents : List Record) (scores : List ℚ),
      (rank_documents documents scores).map Prod.snd =
        if documents.length = scores.length then Except.ok documents
        else Except.error "Number of documents must match number of scores")
    ∧ (∀ (results : List Record) (query : String) (currentYear : Int),
        (rank_results results query currentYear).2 =
          results.map (fun r => setCombined r (some (combinedScore r query currentYear))))
    ∧ (∀ (papers : List Record) (query : String),
        (score_relevance papers query).2 =
          papers.map (fun p => setRelevance p (some (relScore p query))))
    ∧ (∀ (results : List Record) (query : String) (currentYear : Int),
        (rank_results results query currentYear).2 = results ↔
          ∀ r ∈ results, r.combined_score = some (combinedScore r query currentYear)) := by
  refine ⟨fun documents scores => ?_, fun results query currentYear => rfl,
    fun papers query => rfl, fun results query currentYear => ?_⟩
  · by_cases hlen : documents.length = scores.length
    · simp [rank_documents, hlen, Except.map]
    · simp [rank_documents, hlen, Except.map]
  · have hpost : (rank_results results query currentYear).2 =
        results.map (fun r => setCombined r (some (combinedScore r query currentYear))) := rfl
    rw [hpost, mapEqSelfIff]
    constructor
    · intro h r hr
      exact (setCombined_eq_self r _).mp (h r hr)
    · intro h r hr
      exact (setCombined_eq_self r _).mpr (h r hr)

theorem retryAux_step (base_delay : ℚ) (max_retries : Nat)
    (outcomes : Nat → Except String (List Record)) (attempt fuel : Nat) :
    retryAux base_delay max_retries outcomes attempt (fuel + 1) =
      match outcomes attempt with
      | .ok res =>
        if res.isEmpty then
          let next := retryAux base_delay max_retries outcomes (attempt + 1) fuel
          (next.1, next.2.1, next.2.2 + 1)
        else (res, [], 1)
      | .error _ =>
        if attempt = max_retries then ([], [], 1)
        else
          let next := retryAux base_delay max_retries outcomes (attempt + 1) fuel
          (next.1, base_delay * 2 ^ attempt :: next.2.1, next.2.2 + 1) := rfl

theorem retryAux_all_fail (base_delay : ℚ) (max_retries : Nat)
    (outcomes : Nat → Except String (List Record))
    (hfail : ∀ k, isErr (outcomes k) = true) :
    ∀ (n attempt : Nat), attempt + n = max_retries →
    retryAux base_delay max_retries outcomes attempt (n + 1) =
      ([], (List.range n).map (fun j => base_delay * 2 ^ (attempt + j)), n + 1) := by
  intro n
  induction n with
  | zero =>
    intro attempt hat
    cases houtcome : outcomes attempt with
    | ok res =>
      have hk := hfail attempt
      rw [houtcome] at hk
      exact absurd hk (by simp [isErr])
    | error e =>
      have hstop : attempt = max_retries := by omega
      rw [retryAux_step, houtcome]
      simp [hstop]
  | succ n ih =>
    intro attempt hat
    cases houtcome : outcomes attempt with
    | ok res =>
      have hk := hfail attempt
      rw [houtcome] at hk
      exact absurd hk (by simp [isErr])
    | error e =>
      have hne : ¬ attempt = max_retries := by omega
      have hrec := ih (attempt + 1) (by omega)
      rw [retryAux_step, houtcome]
      dsimp only
      rw [if_neg hne, hrec]
      simp only [Prod.mk.injEq, true_and, and_true]
      rw [List.range_succ_eq_map, List.map_cons, List.map_map, Nat.add_zero]
      congr 1
      refine List.map_congr_left (fun j _ => ?_)
      simp only [Function.comp_apply]
      rw [show attempt + 1 + j = attempt + (j + 1) by omega]

/-- Claim C9: for a call sequence in which every attempt raises, the retry
wrapper sleeps `base_delay * 2^k` before re-attempt k (k starting at 0), makes
exactly `max_retries + 1` calls (the initial call plus `max_retries` retries),
and hands the caller the empty record list instead of an exception. -/
theorem c9_retry_backoff (max_retries : Nat) (base_delay : ℚ)
    (outcomes : Nat → Except String (List Record))
    (hfail : ∀ k, isErr (outcomes k) = true) :
    search_with_retry max_retries base_delay outcomes =
      ([], (List.range max_retries).map (fun k => base_delay * 2 ^ k), max_retries + 1) := by
  have hrun := retryAux_all_fail base_delay max_retries outcomes hfail max_retries 0 (by omega)
  rw [search_with_retry, hrun]
  simp only [Prod.mk.injEq, true_and, and_true]
  exact List.map_congr_left (fun j _ => by rw [Nat.zero_add])

/-- Witness for C9: max_retries=3, base_delay=0.25, every call raising: the
caller gets no exception and zero records, after delays 0.25, 0.5, 1.0 and 4
calls. -/
theorem c9_witness :
    (∀ k : Nat,
      isErr ((fun _ : Nat => (Except.error "boom" : Except String (List Record))) k) = true)
    ∧ search_with_retry 3 (1/4)
        (fun _ : Nat => (Except.error "boom" : Except String (List Record))) =
      ([], (List.range 3).map (fun k => (1:ℚ)/4 * 2 ^ k), 3 + 1) :=
  ⟨fun _ => rfl,
    c9_retry_backoff 3 (1/4) (fun _ : Nat => (Except.error "boom" : Except String (List Record)))
      (fun _ => rfl)⟩

theorem foldl_min_replicate (m : Nat) (a : ℚ) : (List.replicate m a).foldl min a = a := by
  induction m with
  | zero => rfl
  | succ k ih => simp only [List.replicate_succ, List.foldl_cons, min_self, ih]

theorem foldl_max_replicate (m : Nat) (a : ℚ) : (List.replicate m a).foldl max a = a := by
  induction m with
  | zero => rfl
  | succ k ih => simp only [List.replicate_succ, List.foldl_cons, max_self, ih]

theorem normalize_const (n : Nat) (a : ℚ) (hn : 0 < n) :
    normalize_scores (List.replicate n a) = List.replicate n 1 := by
  cases n with
  | zero => omega
  | succ m =>
    rw [List.replicate_succ]
    simp [normalize_scores, foldl_min_replicate, foldl_max_replicate]

/-- Claim C10: `normalize_scores` maps every non-empty constant array to all
ones (never zeros, never a division by zero), and consequently, for a ranker
whose weights sum to 1, `calculate_hybrid_scores` on two constant arrays is
exactly 1.0 everywhere, whatever the constants. -/
theorem c10_normalize_const (rk : HybridSearchRanker) (n : Nat) (a b : ℚ)
    (hn : 0 < n) (hw : rk.semantic_weight + rk.keyword_weight = 1) :
    normalize_scores (List.replicate n a) = List.replicate n 1
    ∧ calculate_hybrid_scores rk (List.replicate n a) (List.replicate n b) =
        Except.ok (List.replicate n 1) := by
  have hna := normalize_const n a hn
  have hnb := normalize_const n b hn
  refine ⟨hna, ?_⟩
  simp only [calculate_hybrid_scores, List.length_replicate, if_pos rfl, hna, hnb,
    List.zipWith_replicate', mul_one, hw, if_true]

/-- Witness for C10 with the ranker's default weights 0.7/0.3 and the constant
arrays [5, 5] and [7, 7]. -/
theorem c10_witness :
    normalize_scores (List.replicate 2 (5:ℚ)) = List.replicate 2 1
    ∧ calculate_hybrid_scores ⟨7/10, 3/10⟩ (List.replicate 2 (5:ℚ)) (List.replicate 2 (7:ℚ)) =
        Except.ok (List.replicate 2 1) :=
  c10_normalize_const ⟨7/10, 3/10⟩ 2 5 7 (by norm_num) (by norm_num)
